import Mathlib

/-!
Verification of the agent execution core of the nishi-magic repository: the
tool registry (`src/tools/registry.ts`), the agent engine loop
(`src/agents/engine.ts`), the orchestrator and keyword router
(`src/agents/orchestrator.ts`, `src/agents/sub-agents.ts`), the MCP JSON-RPC
server (`src/mcp/server.ts`), and the stdio MCP client (`src/mcp/client.ts`).
Each TypeScript function is shallowly embedded as an executable Lean
definition; asynchronous handlers that may throw become functions into
`Except String`; the external LLM oracle becomes an explicit function
argument; JSON values become the inductive `Value` type below.
-/

namespace Nishi

/-- JSON-like runtime values (the TypeScript `unknown` payloads that flow
through tool inputs and outputs). -/
inductive Value where
  | null : Value
  | bool (b : Bool) : Value
  | num (n : Int) : Value
  | str (s : String) : Value
  | arr (items : List Value) : Value
  | obj (fields : List (String × Value)) : Value

/-- JSON string escaping of one character (quote and backslash; control
characters other than the common ones are left as-is, which is adequate for
the string data handled by these claims). -/
def escapeChar (c : Char) : String :=
  if c = '"' then "\\\""
  else if c = '\\' then "\\\\"
  else if c = '\n' then "\\n"
  else if c = '\t' then "\\t"
  else String.singleton c

/-- JSON string escaping. -/
def escapeString (s : String) : String :=
  String.join (s.toList.map escapeChar)

mutual

/-- `JSON.stringify(v)` (compact form, as used by the agent engine when it
wraps a non-string tool result). -/
def Value.stringify : Value → String
  | .null => "null"
  | .bool b => if b then "true" else "false"
  | .num n => toString n
  | .str s => "\"" ++ escapeString s ++ "\""
  | .arr items => "[" ++ stringifyItems items ++ "]"
  | .obj fields => "\x7b" ++ stringifyFields fields ++ "\x7d"

/-- Comma-separated serialization of array elements. -/
def stringifyItems : List Value → String
  | [] => ""
  | [v] => Value.stringify v
  | v :: rest => Value.stringify v ++ "," ++ stringifyItems rest

/-- Comma-separated serialization of object fields. -/
def stringifyFields : List (String × Value) → String
  | [] => ""
  | [(k, v)] => "\"" ++ escapeString k ++ "\":" ++ Value.stringify v
  | (k, v) :: rest =>
      "\"" ++ escapeString k ++ "\":" ++ Value.stringify v ++ "," ++ stringifyFields rest

end

mutual

/-- `JSON.stringify(v, null, 2)` (the pretty form used by the MCP server when
it stringifies a non-string tool result). Indentation mimics the two-space
JSON layout; its exact text is never compared against the compact form by any
claim, only against itself. -/
def Value.stringifyPretty (indent : Nat) : Value → String
  | .null => "null"
  | .bool b => if b then "true" else "false"
  | .num n => toString n
  | .str s => "\"" ++ escapeString s ++ "\""
  | .arr [] => "[]"
  | .arr items =>
      "[\n" ++ prettyItems (indent + 2) items ++ "\n" ++ pad indent ++ "]"
  | .obj [] => "\x7b\x7d"
  | .obj fields =>
      "\x7b\n" ++ prettyFields (indent + 2) fields ++ "\n" ++ pad indent ++ "\x7d"

/-- Newline-separated pretty serialization of array elements. -/
def prettyItems (indent : Nat) : List Value → String
  | [] => ""
  | [v] => pad indent ++ Value.stringifyPretty indent v
  | v :: rest =>
      pad indent ++ Value.stringifyPretty indent v ++ ",\n" ++ prettyItems indent rest

/-- Newline-separated pretty serialization of object fields. -/
def prettyFields (indent : Nat) : List (String × Value) → String
  | [] => ""
  | [(k, v)] => pad indent ++ "\"" ++ escapeString k ++ "\": " ++ Value.stringifyPretty indent v
  | (k, v) :: rest =>
      pad indent ++ "\"" ++ escapeString k ++ "\": " ++ Value.stringifyPretty indent v
        ++ ",\n" ++ prettyFields indent rest

/-- Indentation padding. -/
def pad (n : Nat) : String :=
  String.join (List.replicate n " ")

end

mutual

/-- Structural equality of JSON values (JavaScript `===` on the string case
is all the embedded code ever relies on; the full structural test is the
natural total extension). -/
def Value.beq : Value → Value → Bool
  | .null, .null => true
  | .bool a, .bool b => a == b
  | .num a, .num b => a == b
  | .str a, .str b => a == b
  | .arr xs, .arr ys => beqItems xs ys
  | .obj xs, .obj ys => beqFields xs ys
  | _, _ => false

/-- Element-wise equality of value lists. -/
def beqItems : List Value → List Value → Bool
  | [], [] => true
  | x :: xs, y :: ys => Value.beq x y && beqItems xs ys
  | _, _ => false

/-- Field-wise equality of object field lists. -/
def beqFields : List (String × Value) → List (String × Value) → Bool
  | [], [] => true
  | (k, v) :: xs, (l, w) :: ys => k == l && Value.beq v w && beqFields xs ys
  | _, _ => false

end

instance : BEq Value := ⟨Value.beq⟩

/-- JavaScript string coercion used where a value is interpolated into a
template literal. Primitive cases are exact; object and array coercion is
approximated by their JSON text (no claim exercises those branches). -/
def jsString : Option Value → String
  | none => "undefined"
  | some .null => "null"
  | some (.bool b) => if b then "true" else "false"
  | some (.num n) => toString n
  | some (.str s) => s
  | some v => Value.stringify v

/-- Property lookup `v[k]` on a JSON value: `none` models `undefined`. -/
def objField : Option Value → String → Option Value
  | some (.obj fields), k => fields.lookup k
  | _, _ => none

-- ───────────────────────── Tool Registry (src/tools/registry.ts) ───────────

/-- `ToolDefinition` from `src/types/index.ts`: the schema-bearing part of a
tool, shown to the LLM. The `input_schema` is kept as a JSON value. -/
structure ToolDefinition where
  name : String
  description : String
  input_schema : Value

/-- A tool handler: the async `(input) => Promise<ToolOutput>` function; a
thrown exception becomes `Except.error` carrying the error message. -/
abbrev Handler : Type := Value → Except String Value

/-- One registry entry (`ToolEntry` in `src/tools/registry.ts`). -/
structure ToolEntry where
  definition : ToolDefinition
  handler : Handler

/-- The tool registry's backing `Map<string, ToolEntry>`, modeled as an
association list in insertion order (JavaScript `Map` iterates in insertion
order, and `set` on an existing key updates in place without moving it). -/
abbrev ToolRegistry : Type := List (String × ToolEntry)

namespace ToolRegistry

/-- The empty registry (`new ToolRegistry()`). -/
def empty : ToolRegistry := []

/-- `register(definition, handler)`: `Map.set` keyed by `definition.name`;
an existing key is overwritten in place, a new key is appended. -/
def register (r : ToolRegistry) (definition : ToolDefinition) (handler : Handler) :
    ToolRegistry :=
  if r.any (fun p => p.1 == definition.name) then
    r.map (fun p => if p.1 == definition.name then (p.1, ⟨definition, handler⟩) else p)
  else
    r ++ [(definition.name, ⟨definition, handler⟩)]

/-- `Map.get` on the backing map. -/
def find? (r : ToolRegistry) (name : String) : Option ToolEntry :=
  (List.find? (fun p => p.1 == name) r).map (·.2)

/-- `has(name)`. -/
def has (r : ToolRegistry) (name : String) : Bool :=
  r.any (fun p => p.1 == name)

/-- `names()`. -/
def names (r : ToolRegistry) : List String :=
  r.map (·.1)

/-- `definitions()`: all definitions, in map iteration order. -/
def definitions (r : ToolRegistry) : List ToolDefinition :=
  r.map (fun p => p.2.definition)

/-- `definitionsFor(names)`: filter the requested names down to registered
ones, then map each to its stored definition. -/
def definitionsFor (r : ToolRegistry) (ns : List String) : List ToolDefinition :=
  (ns.filter (fun n => has r n)).filterMap (fun n => (find? r n).map (·.definition))

/-- `execute(name, input)`: throws `Unknown tool: <name>` when absent,
otherwise runs the handler and surfaces its result or exception verbatim. -/
def execute (r : ToolRegistry) (name : String) (input : Value) : Except String Value :=
  match find? r name with
  | none => .error s!"Unknown tool: {name}"
  | some entry => entry.handler input

/-- Well-formedness which `register` maintains: each entry is stored under its
own definition's name. -/
def WF (r : ToolRegistry) : Prop :=
  ∀ p ∈ r, p.2.definition.name = p.1

end ToolRegistry

-- ───────────────────────── Messages and LLM responses (src/types/index.ts) ─

/-- Message roles. -/
inductive Role where
  | user : Role
  | assistant : Role
deriving DecidableEq

/-- One content block of a conversation turn. The engine only ever reads the
fields present here; optional fields that the engine never populates are
dropped. Tool-result content is always a string because the engine
stringifies non-string results before wrapping them. -/
inductive ContentBlock where
  | text (text : String) : ContentBlock
  | toolUse (id : String) (name : String) (input : Value) : ContentBlock
  | toolResult (toolUseId : String) (content : String) : ContentBlock

/-- A message's `content`: either a plain string or a block sequence. -/
inductive MessageContent where
  | str (s : String) : MessageContent
  | blocks (bs : List ContentBlock) : MessageContent

/-- One conversation turn. -/
structure Message where
  role : Role
  content : MessageContent

/-- A tool-use block extracted from an LLM reply (`ToolUseBlock`). -/
structure ToolUseBlock where
  id : String
  name : String
  input : Value

/-- An LLM reply. Only the `content` array is ever read by the embedded code;
the response metadata (`id`, `model`, `stop_reason`, `usage`) is never
consulted and is omitted. -/
structure LLMResponse where
  content : List ContentBlock

/-- `extractText(response)`: the newline-join of all text blocks. -/
def extractText (response : LLMResponse) : String :=
  String.intercalate "\n"
    (response.content.filterMap (fun b => match b with
      | .text t => some t
      | _ => none))

/-- The tool-use blocks of a block list. -/
def toolUsesIn (bs : List ContentBlock) : List ToolUseBlock :=
  bs.filterMap (fun b => match b with
    | .toolUse id name input => some ⟨id, name, input⟩
    | _ => none)

/-- `extractToolUse(response)`: all tool-use blocks of the reply's content,
in order. -/
def extractToolUse (response : LLMResponse) : List ToolUseBlock :=
  toolUsesIn response.content

-- ───────────────────────── Agent Engine (src/agents/engine.ts) ─────────────

/-- A `ToolCall` audit record (`{name, input}`). -/
structure ToolCall where
  name : String
  input : Value

/-- `RunAgentResult`. -/
structure RunAgentResult where
  result : String
  messages : List Message
  toolCalls : List ToolCall

/-- `RunAgentOptions`. `maxIterations` is an `Int` because the source accepts
any JavaScript number and the `for` loop simply never runs when it is not
positive. The `name` field (used only for logging) is omitted. -/
structure RunAgentOptions where
  systemPrompt : String
  userMessage : String
  toolNames : Option (List String)
  maxIterations : Int
  priorMessages : List Message

/-- The oracle: `callLLM` abstracted as a function of the 0-based call index
and of the `tools` argument the engine passes (which is `none` when the
filtered tool list is empty, mirroring `tools.length > 0 ? tools :
undefined`). The engine treats it as total; an oracle failure propagates out
of the whole invocation in the source and is outside the embedded state
space. -/
abbrev Oracle : Type := Nat → Option (List ToolDefinition) → LLMResponse

/-- The body of the per-tool-use `try/catch`: execute via the registry, on an
exception substitute the `{error: message}` object, then wrap as a
tool-result block whose content is the raw string result or the compact JSON
serialization of a non-string result. -/
def toolResultBlock (r : ToolRegistry) (tu : ToolUseBlock) : ContentBlock :=
  let payload : Value :=
    match ToolRegistry.execute r tu.name tu.input with
    | .ok v => v
    | .error m => Value.obj [("error", Value.str m)]
  ContentBlock.toolResult tu.id
    (match payload with
      | .str s => s
      | v => Value.stringify v)

/-- The mutable locals of `runAgent`'s loop, plus the number of `callLLM`
invocations made so far (observable instrumentation: the source performs
exactly one oracle call per loop iteration, at the top). -/
structure EngineState where
  messages : List Message
  toolCalls : List ToolCall
  finalText : String
  llmCalls : Nat

/-- The `for (let i = 0; i < maxIterations; i++)` loop of `runAgent`,
as a fuel recursion: call the oracle, remember any non-empty text as the
candidate final answer, append the assistant reply, stop if it requested no
tools, otherwise execute every requested tool (failures substituted inline),
record them, append one user message holding all tool results, and repeat. -/
def runAgentLoop (oracle : Nat → LLMResponse) (r : ToolRegistry) :
    Nat → EngineState → EngineState
  | 0, st => st
  | fuel + 1, st =>
    let response := oracle st.llmCalls
    let text := extractText response
    let finalText := if text ≠ "" then text else st.finalText
    let toolUseBlocks := extractToolUse response
    let messages := st.messages ++ [⟨.assistant, .blocks response.content⟩]
    if toolUseBlocks.isEmpty then
      { st with messages := messages, finalText := finalText,
                llmCalls := st.llmCalls + 1 }
    else
      runAgentLoop oracle r fuel
        { messages := messages ++
            [⟨.user, .blocks (toolUseBlocks.map (toolResultBlock r))⟩],
          toolCalls := st.toolCalls ++
            toolUseBlocks.map (fun tu => ⟨tu.name, tu.input⟩),
          finalText := finalText,
          llmCalls := st.llmCalls + 1 }

/-- The tool list built at the top of `runAgent`:
`toolNames ? registry.definitionsFor(toolNames) : registry.definitions()`. -/
def runAgentTools (r : ToolRegistry) (toolNames : Option (List String)) :
    List ToolDefinition :=
  match toolNames with
  | some ns => ToolRegistry.definitionsFor r ns
  | none => ToolRegistry.definitions r

/-- The `tools` argument passed to every `callLLM` call:
`tools.length > 0 ? tools : undefined`. -/
def runAgentToolsArg (r : ToolRegistry) (toolNames : Option (List String)) :
    Option (List ToolDefinition) :=
  let tools := runAgentTools r toolNames
  if tools.length > 0 then some tools else none

/-- The initial engine state: prior messages followed by the one new user
message, empty audit trail, empty candidate answer. -/
def initialState (opts : RunAgentOptions) : EngineState :=
  ⟨opts.priorMessages ++ [⟨.user, .str opts.userMessage⟩], [], "", 0⟩

/-- `runAgent(opts)`. -/
def runAgent (oracle : Oracle) (r : ToolRegistry) (opts : RunAgentOptions) :
    RunAgentResult :=
  let st := runAgentLoop (fun i => oracle i (runAgentToolsArg r opts.toolNames)) r
    opts.maxIterations.toNat (initialState opts)
  ⟨st.finalText, st.messages, st.toolCalls⟩

/-- The number of `callLLM` invocations a `runAgent` invocation performs. -/
def runAgentLLMCalls (oracle : Oracle) (r : ToolRegistry) (opts : RunAgentOptions) :
    Nat :=
  (runAgentLoop (fun i => oracle i (runAgentToolsArg r opts.toolNames)) r
    opts.maxIterations.toNat (initialState opts)).llmCalls

-- ───────────────────────── JS string helpers for quickRoute ────────────────

/-- `message.toLowerCase()` (character-wise, which coincides with JavaScript
on the ASCII trigger data involved). -/
def toLowerJS (s : String) : String :=
  ⟨s.data.map Char.toLower⟩

/-- Does `needle` occur contiguously inside `hay`? -/
def inclAux (needle : List Char) : List Char → Bool
  | [] => needle.isEmpty
  | c :: rest => needle.isPrefixOf (c :: rest) || inclAux needle rest

/-- `hay.includes(needle)` on strings. -/
def includesJS (hay needle : String) : Bool :=
  inclAux needle.data hay.data

/-- `String.prototype.split(sep)` restricted to a one-character separator,
accumulating the current segment; always yields at least one segment, like
JavaScript. -/
def splitCharAux (sep : Char) : List Char → List Char → List (List Char)
  | [], cur => [cur.reverse]
  | c :: rest, cur =>
    if c = sep then cur.reverse :: splitCharAux sep rest []
    else splitCharAux sep rest (c :: cur)

/-- `trigger.split(' ').length`: the number of space-separated segments. -/
def splitSpaceLen (s : String) : Nat :=
  (splitCharAux ' ' s.data []).length

-- ───────────────────────── Sub-Agent Catalog (src/agents/sub-agents.ts) ────

/-- A `SubAgentDefinition` minus its handler function `fn` (each `fn` is a
fixed `runAgent` closure; the orchestrator embedding abstracts it as the
`subFn` parameter). -/
structure SubAgentDef where
  description : String
  triggers : List String

/-- The `SUB_AGENTS` export map, in declaration order (JavaScript
`Object.entries` iterates string keys in insertion order). -/
def SUB_AGENTS : List (String × SubAgentDef) :=
  [ ("feature_analysis",
      ⟨"Analyze requirements, create implementation plans, decompose into stories/tasks",
       ["analyze feature", "requirement", "implementation plan", "decompose",
        "wireframe to requirements", "diagram to requirements", "prd"]⟩),
    ("jira_management",
      ⟨"Create, update, search Jira tickets; manage statuses, comments, sub-tasks",
       ["jira", "ticket", "story", "epic", "sprint", "backlog", "sub-task", "status"]⟩),
    ("code_analysis",
      ⟨"Deep analysis of codebase: structure, standards, patterns, improvements",
       ["analyze code", "code analysis", "repo analysis", "understand codebase",
        "code standards", "analyze the codebase", "codebase"]⟩),
    ("code_writer",
      ⟨"Write production code matching project patterns and standards",
       ["write code", "implement", "create file", "add feature", "build", "code"]⟩),
    ("code_test",
      ⟨"Write unit tests, integration tests following project conventions",
       ["test", "unit test", "integration test", "write test", "add test"]⟩),
    ("code_review",
      ⟨"Review code for quality, security, performance, standards compliance",
       ["review", "code review", "pr review", "pull request", "check code"]⟩),
    ("document_management",
      ⟨"Manage Confluence pages and project documentation",
       ["confluence", "documentation", "wiki", "page", "document", "docs"]⟩),
    ("diagram_generation",
      ⟨"Generate diagrams (flow, sequence, ER, wireframe) from requirements or code",
       ["diagram", "flowchart", "wireframe", "sequence diagram", "er diagram", "mermaid"]⟩) ]

/-- The inner scoring loop of `quickRoute`: over the agent's triggers, add
`trigger.split(' ').length` whenever the lowercased message contains the
trigger. -/
def agentScore (lower : String) (agent : SubAgentDef) : Nat :=
  agent.triggers.foldl
    (fun score trigger =>
      if includesJS lower trigger then score + splitSpaceLen trigger else score)
    0

/-- `quickRoute(userMessage)`: fold over the catalog keeping the best match,
replacing it only on a strictly greater score; return it only if the best
score is positive. -/
def quickRoute (userMessage : String) : Option String :=
  let lower := toLowerJS userMessage
  let best := SUB_AGENTS.foldl
    (fun acc entry =>
      let score := agentScore lower entry.2
      if score > acc.2 then (some entry.1, score) else acc)
    ((none : Option String), 0)
  if best.2 > 0 then best.1 else none

-- ───────────────────────── Orchestrator (src/agents/orchestrator.ts) ───────

/-- `OrchestrateResult`. -/
structure OrchestrateResult where
  result : String
  delegations : List (String × String)
  conversationHistory : List Message

/-- A sub-agent invocation boundary: given the agent key and the delegated
message, produce the sub-agent's textual `result.result`, or throw. This is
the `SUB_AGENTS[agent].fn({message})` call; each `fn` is itself a `runAgent`
invocation whose internals are embedded separately. -/
abbrev SubFn : Type := String → String → Except String String

/-- The per-turn delegation processing of `orchestrate`: walk the tool-use
blocks in order; a block whose name is not `delegate_to_agent` is skipped
entirely (no tool result is pushed for it); an unknown agent key yields an
inline error result; a sub-agent exception yields an inline error result; a
successful delegation records `{agent, result}` and wraps the (possibly
defaulted) text as the tool result. -/
def processDelegations (subFn : SubFn) :
    List ToolUseBlock → List ContentBlock × List (String × String)
  | [] => ([], [])
  | tu :: rest =>
    let (restBlocks, restDelegations) := processDelegations subFn rest
    if tu.name = "delegate_to_agent" then
      let agentName := jsString (objField (some tu.input) "agent")
      let message := jsString (objField (some tu.input) "message")
      if (SUB_AGENTS.find? (fun p => p.1 == agentName)).isSome then
        match subFn agentName message with
        | .ok res =>
          (ContentBlock.toolResult tu.id
              (if res ≠ "" then res else "Sub-agent completed but returned no text.")
            :: restBlocks,
           (agentName, res) :: restDelegations)
        | .error errorMsg =>
          (ContentBlock.toolResult tu.id s!"Error from {agentName}: {errorMsg}"
            :: restBlocks,
           restDelegations)
      else
        (ContentBlock.toolResult tu.id s!"Error: Unknown agent \"{agentName}\""
          :: restBlocks,
         restDelegations)
    else
      (restBlocks, restDelegations)

/-- The mutable locals of `orchestrate`'s loop. -/
structure OrchestratorState where
  messages : List Message
  delegations : List (String × String)
  finalResult : String
  llmCalls : Nat

/-- The `for (let i = 0; i < maxOrchestratorLoops; i++)` loop of
`orchestrate`. -/
def orchestrateLoop (oracle : Nat → LLMResponse) (subFn : SubFn) :
    Nat → OrchestratorState → OrchestratorState
  | 0, st => st
  | fuel + 1, st =>
    let response := oracle st.llmCalls
    let text := extractText response
    let finalResult := if text ≠ "" then text else st.finalResult
    let toolUseBlocks := extractToolUse response
    let messages := st.messages ++ [⟨.assistant, .blocks response.content⟩]
    if toolUseBlocks.isEmpty then
      { st with messages := messages, finalResult := finalResult,
                llmCalls := st.llmCalls + 1 }
    else
      let (toolResults, newDelegations) := processDelegations subFn toolUseBlocks
      orchestrateLoop oracle subFn fuel
        { messages := messages ++ [⟨.user, .blocks toolResults⟩],
          delegations := st.delegations ++ newDelegations,
          finalResult := finalResult,
          llmCalls := st.llmCalls + 1 }

/-- `maxOrchestratorLoops` from the source. -/
def maxOrchestratorLoops : Nat := 10

/-- `orchestrate(userMessage, conversationHistory)`. The orchestrator's
oracle always receives the single synthetic delegation tool; since the tool
list is constant, the oracle is abstracted by call index only. -/
def orchestrate (oracle : Nat → LLMResponse) (subFn : SubFn)
    (userMessage : String) (conversationHistory : List Message) :
    OrchestrateResult :=
  let st := orchestrateLoop oracle subFn maxOrchestratorLoops
    ⟨conversationHistory ++ [⟨.user, .str userMessage⟩], [], "", 0⟩
  ⟨st.finalResult, st.delegations, st.messages⟩

-- ───────────────────────── MCP Server (src/mcp/server.ts) ──────────────────

/-- The `Tool` shape from `src/types/index.ts` used by the MCP server's own
catalog: a name, a description, a JSON input schema, and an `execute`
handler. -/
structure Tool where
  name : String
  description : String
  input_schema : Value
  execute : Handler

/-- A JSON-RPC id, which may be a string or a number. -/
inductive RpcId where
  | str (s : String) : RpcId
  | num (n : Int) : RpcId
deriving DecidableEq

/-- A parsed `JsonRpcRequest` (`jsonrpc: '2.0'` carried implicitly). -/
structure JsonRpcRequest where
  id : Option RpcId
  method : String
  params : Option Value

/-- A JSON-RPC error object. -/
structure RpcError where
  code : Int
  message : String
  data : Option Value

/-- A `JsonRpcResponse`. -/
structure JsonRpcResponse where
  id : Option RpcId
  result : Option Value
  error : Option RpcError

/-- The MCP server: its constructor snapshots `getDevWeaverTools()` into
`this.tools`; everything else is method dispatch over that list. -/
structure MCPServer where
  tools : List Tool

/-- `handleInitialize`: protocol version, server identity, capabilities. -/
def handleInitialize (id : Option RpcId) : JsonRpcResponse :=
  ⟨id,
   some (Value.obj
     [("protocolVersion", Value.str "2024-11-05"),
      ("serverInfo", Value.obj
        [("name", Value.str "devweaver"), ("version", Value.str "1.0.0")]),
      ("capabilities", Value.obj [("tools", Value.obj [])])]),
   none⟩

/-- `handleListTools`: every catalog tool as `{name, description,
inputSchema}`. -/
def handleListTools (s : MCPServer) (id : Option RpcId) : JsonRpcResponse :=
  ⟨id,
   some (Value.obj
     [("tools", Value.arr (s.tools.map (fun t => Value.obj
        [("name", Value.str t.name),
         ("description", Value.str t.description),
         ("inputSchema", t.input_schema)])))]),
   none⟩

/-- The JavaScript guard `!params || typeof params !== 'object'`: only an
object or an array passes (null is falsy, all other primitives have a
non-object typeof). -/
def isObjectParams : Option Value → Bool
  | some (.obj _) => true
  | some (.arr _) => true
  | _ => false

/-- Wrapping of a `tools/call` outcome: a successful result becomes a single
text content block (raw string, or pretty-printed JSON for a non-string
value); a thrown handler exception becomes a `-32603` error whose `data` is
the exception message. -/
def wrapCallOutcome (id : Option RpcId) : Except String Value → JsonRpcResponse
  | .ok v =>
    ⟨id,
     some (Value.obj
       [("content", Value.arr [Value.obj
          [("type", Value.str "text"),
           ("text", Value.str (match v with
             | .str s => s
             | v => Value.stringifyPretty 0 v))]])]),
     none⟩
  | .error m =>
    ⟨id, none, some ⟨-32603, "Tool execution failed", some (Value.str m)⟩⟩

/-- `handleCallTool(id, params)`: validate params, find the tool by name in
the server's own catalog, execute it, and wrap the outcome. -/
def handleCallTool (s : MCPServer) (id : Option RpcId) (params : Option Value) :
    JsonRpcResponse :=
  if !isObjectParams params then
    ⟨id, none, some ⟨-32602, "Invalid params", none⟩⟩
  else
    let nameV := objField params "name"
    match s.tools.find? (fun t => nameV == some (Value.str t.name)) with
    | none =>
      ⟨id, none, some ⟨-32602, s!"Tool not found: {jsString nameV}", none⟩⟩
    | some t =>
      wrapCallOutcome id (t.execute ((objField params "arguments").getD Value.null))

/-- `processRequest`: dispatch on the method; only `initialized` is a
notification (returns no response); every other method — known or not —
yields exactly one response, carrying the request's id (possibly absent). -/
def processRequest (s : MCPServer) (req : JsonRpcRequest) : Option JsonRpcResponse :=
  match req.method with
  | "initialize" => some (handleInitialize req.id)
  | "initialized" => none
  | "tools/list" => some (handleListTools s req.id)
  | "tools/call" => some (handleCallTool s req.id req.params)
  | "ping" => some ⟨req.id, some (Value.obj [("status", Value.str "ok")]), none⟩
  | other => some ⟨req.id, none, some ⟨-32601, s!"Method not found: {other}", none⟩⟩

/-- The names of the sixteen tools returned by `getDevWeaverTools()`
(`src/mcp/tools.ts`), in catalog order. -/
def devWeaverToolNames : List String :=
  [ "devweaver_init_project", "devweaver_add_phase", "devweaver_insert_phase",
    "devweaver_remove_phase", "devweaver_complete_phase", "devweaver_new_milestone",
    "devweaver_complete_milestone", "devweaver_read_roadmap", "devweaver_read_state",
    "devweaver_read_requirements", "devweaver_read_project", "devweaver_read_config",
    "devweaver_update_state", "devweaver_update_config",
    "devweaver_get_current_phase", "devweaver_get_progress" ]

/-- Modelled from the spec: the DevWeaver tool handlers perform the
documentation-scaffolding filesystem operations of `src/utils/docs.ts`, a
module absent from the provided sources and declared out of scope by the
specification; each handler is modelled as an opaque success. Only the tool
names and the dispatch around them bear on any claim; no claim executes
these handlers. The parameter schemas, likewise outside every claim, are
elided to the empty object schema. -/
def getDevWeaverTools : List Tool :=
  devWeaverToolNames.map (fun n =>
    ⟨n, n,
     Value.obj [("type", Value.str "object"), ("properties", Value.obj [])],
     fun _ => .ok (Value.obj [("success", Value.bool true)])⟩)

/-- The server as constructed (`new DevWeaverMCPServer()`). -/
def devWeaverServer : MCPServer := ⟨getDevWeaverTools⟩

/-- The names listed in a `tools/list` response, read back out of the
response value. -/
def responseToolNames (resp : JsonRpcResponse) : List Value :=
  match resp.result with
  | some (.obj fields) =>
    match fields.lookup "tools" with
    | some (.arr ts) =>
      ts.filterMap (fun tv => match tv with
        | .obj tfields => tfields.lookup "name"
        | _ => none)
    | _ => []
  | _ => []

-- ───────────────────────── Stdio MCP client (src/mcp/client.ts) ────────────

/-- The `StdioMCPClient` fields that the request/response bookkeeping reads
and writes: the monotone request-id counter, the pending-request map (id to
the method captured by that request's resolver and timeout closures), and
whether the spawned child process is still attached. The raw byte `buffer`
and JSON framing are abstracted: incoming traffic is modelled at the level
of already-split, already-parsed lines (`InMsg`). -/
structure ClientState where
  requestId : Nat
  pending : List (Nat × String)
  processAlive : Bool

/-- What a resolver observes: its promise resolving with a result or
rejecting with an error message. -/
inductive Outcome where
  | resolved (id : Nat) (result : Value) : Outcome
  | rejected (id : Nat) (message : String) : Outcome

/-- One line of the child's standard output after `JSON.parse`: `junk` is an
unparseable or id-less line (skipped by the permissive reader); `msg` is a
parsed object whose numeric `id`, `error` message and `result` are read by
`_onData`. -/
inductive InMsg where
  | junk : InMsg
  | msg (id : Option Nat) (error : Option String) (result : Value) : InMsg

/-- `_sendRequest`'s synchronous state effect: allocate `++this.requestId`,
store the pending entry, return the fresh id (the write to the child's stdin
and the armed 30-second timer are the asynchronous counterparts, modelled by
the `onTimeoutFire` event below). -/
def sendRequest (st : ClientState) (method : String) : ClientState × Nat :=
  let id := st.requestId + 1
  ({ st with requestId := id, pending := st.pending ++ [(id, method)] }, id)

/-- `_onData`'s handling of one parsed line: a numeric id held in the pending
map retires that entry and rejects (on a truthy `error`) or resolves the
matching promise; anything else is silently ignored. -/
def onMessage (st : ClientState) (m : InMsg) : ClientState × List Outcome :=
  match m with
  | .junk => (st, [])
  | .msg none _ _ => (st, [])
  | .msg (some id) err res =>
    if st.pending.any (fun p => p.1 == id) then
      ({ st with pending := st.pending.filter (fun p => !(p.1 == id)) },
       match err with
       | some e => [Outcome.rejected id e]
       | none => [Outcome.resolved id res])
    else (st, [])

/-- `_onData` over a burst of complete lines. -/
def onData (st : ClientState) : List InMsg → ClientState × List Outcome
  | [] => (st, [])
  | m :: rest =>
    let (st1, out1) := onMessage st m
    let (st2, out2) := onData st1 rest
    (st2, out1 ++ out2)

/-- The 30-second timer armed by `_sendRequest` firing for request `id`
(whose closure captured `id` and `method`): if the entry is still pending it
is removed and the caller rejected with the timeout error; otherwise the
timer does nothing. The connection itself is untouched. -/
def onTimeoutFire (st : ClientState) (id : Nat) (method : String) :
    ClientState × List Outcome :=
  if st.pending.any (fun p => p.1 == id) then
    ({ st with pending := st.pending.filter (fun p => !(p.1 == id)) },
     [Outcome.rejected id s!"MCP request timed out: {method}"])
  else
    (st, [])

/-- `disconnect()`: kill and detach the child process; the pending map is not
touched here. -/
def disconnect (st : ClientState) : ClientState :=
  { st with processAlive := false }

/-- The client bookkeeping invariant: pending ids are pairwise distinct
(exactly one entry per outstanding id) and never exceed the id counter. -/
def ClientWF (st : ClientState) : Prop :=
  (st.pending.map Prod.fst).Nodup ∧ ∀ p ∈ st.pending, p.1 ≤ st.requestId

-- ───────────────────────── Conversation pairing predicate ──────────────────

/-- The tool-invocation requests a message leaves pending: the tool-use
blocks of an assistant block message; user messages and plain-string
messages request nothing. -/
def pendingToolUses (m : Message) : List ToolUseBlock :=
  match m.role, m.content with
  | .assistant, .blocks bs => toolUsesIn bs
  | _, _ => []

/-- How many tool-result blocks of `m` carry the correlation id `id`. -/
def resultCount (m : Message) (id : String) : Nat :=
  match m.content with
  | .blocks bs =>
    (bs.filterMap (fun b => match b with
      | .toolResult i _ => some i
      | _ => none)).count id
  | _ => 0

/-- The pairing invariant over a conversation: every tool-use block of an
assistant message is answered by exactly one tool-result block with the same
correlation id in the immediately following user-role message, and the
conversation does not end on unanswered requests. -/
def pairedBool : List Message → Bool
  | [] => true
  | [m] => (pendingToolUses m).isEmpty
  | m :: m' :: rest =>
    ((pendingToolUses m).isEmpty ||
      (decide (m'.role = .user) &&
        (pendingToolUses m).all (fun tu => resultCount m' tu.id == 1)))
    && pairedBool (m' :: rest)

-- ───────────────────────── Context manager constants ───────────────────────

/-- The default `toolNames` filter of `spawnResearcher`
(`src/agents/context-manager.ts`): wildcard-style entries, which are not the
name of any registered tool (registration uses full names such as
`code_read_file`). -/
def researcherToolNames : List String := ["code_*", "bitbucket_*"]

-- ───────────────────────── Concrete fixtures used by witnesses ─────────────

/-- A sample tool definition registered only in the Tool Registry. -/
def myToolDef : ToolDefinition :=
  ⟨"my_tool", "a registry-only tool",
   Value.obj [("type", Value.str "object"), ("properties", Value.obj [])]⟩

/-- Its handler: always succeeds with a fixed string. -/
def myHandler : Handler := fun _ => .ok (Value.str "registry result")

/-- A registry holding exactly `my_tool`. -/
def registryOnly : ToolRegistry :=
  ToolRegistry.register ToolRegistry.empty myToolDef myHandler

-- ───────────────────────── Registry lemmas ─────────────────────────────────

namespace ToolRegistry

theorem find?_of_has {r : ToolRegistry} {n : String} (h : has r n = true) :
    ∃ p, List.find? (fun p => p.1 == n) r = some p ∧ p.1 = n ∧ p ∈ r := by
  unfold has at h
  rw [List.any_eq_true] at h
  obtain ⟨q, hq, hqn⟩ := h
  have hsome : (List.find? (fun p => p.1 == n) r).isSome := by
    rw [List.find?_isSome]
    exact ⟨q, hq, hqn⟩
  obtain ⟨p, hp⟩ := Option.isSome_iff_exists.mp hsome
  refine ⟨p, hp, ?_, List.mem_of_find?_eq_some hp⟩
  have := List.find?_some hp
  exact eq_of_beq this

theorem definitionsFor_names {r : ToolRegistry} (hwf : WF r) (ns : List String) :
    (definitionsFor r ns).map ToolDefinition.name = ns.filter (fun n => has r n) := by
  induction ns with
  | nil => rfl
  | cons n rest ih =>
    by_cases hn : has r n = true
    · obtain ⟨p, hp, hpn, hpr⟩ := find?_of_has hn
      have hfind : find? r n = some p.2 := by
        unfold find?
        rw [hp]
        rfl
      simp only [definitionsFor, List.filter_cons, hn, if_pos, List.filterMap_cons,
        hfind, Option.map_some]
      simp only [definitionsFor] at ih
      simp [ih, hwf p hpr, hpn]
    · have hn' : has r n = false := by simpa using hn
      simp only [definitionsFor, List.filter_cons, hn']
      simpa [definitionsFor] using ih

end ToolRegistry

-- ───────────────────────── Claim C7 ────────────────────────────────────────

/-- C7 (corrected): a filtered query with the empty filter list returns the
empty list, excluding every registered spec — refuting the claim that it
includes them all. `registryOnly` holds `my_tool`, whose spec appears in the
unfiltered `definitions()` but not in `definitionsFor([])`. -/
theorem claim_C7_counterexample :
    ToolRegistry.definitions registryOnly = [myToolDef] ∧
    ToolRegistry.definitionsFor registryOnly [] = [] :=
  ⟨rfl, rfl⟩

/-- C7 (amended): for every registered `(spec, handler)` pair the unfiltered
`definitions()` includes the spec; `definitionsFor` with the empty filter
list returns the empty list; unknown names in a filter list are silently
dropped (filtering them away does not change the result); and the result
order is the filter's relative order (its names are exactly the known filter
names, in filter order). -/
theorem claim_C7_theorem :
    ∀ (r : ToolRegistry) (d : ToolDefinition) (h : Handler) (ns : List String),
    ToolRegistry.WF r →
    ((((d.name, (⟨d, h⟩ : ToolEntry)) ∈ r) → d ∈ ToolRegistry.definitions r) ∧
     ToolRegistry.definitionsFor r [] = [] ∧
     ToolRegistry.definitionsFor r ns =
       ToolRegistry.definitionsFor r (ns.filter (fun n => ToolRegistry.has r n)) ∧
     (ToolRegistry.definitionsFor r ns).map ToolDefinition.name =
       ns.filter (fun n => ToolRegistry.has r n)) := by
  intro r d h ns hwf
  refine ⟨?_, rfl, ?_, ToolRegistry.definitionsFor_names hwf ns⟩
  · intro hmem
    exact List.mem_map_of_mem _ hmem
  · unfold ToolRegistry.definitionsFor
    rw [List.filter_filter]
    simp

/-- A second sample tool, used to exercise filter order. -/
def secondToolDef : ToolDefinition :=
  ⟨"other_tool", "another registry tool",
   Value.obj [("type", Value.str "object"), ("properties", Value.obj [])]⟩

/-- A registry holding `my_tool` then `other_tool`. -/
def sampleRegistry : ToolRegistry :=
  ToolRegistry.register registryOnly secondToolDef myHandler

/-- Witness for C7's amended theorem on a two-tool registry with a filter
list holding one known and one unknown name. -/
theorem claim_C7_witness :
    ToolRegistry.WF sampleRegistry ∧
    ((((myToolDef.name, (⟨myToolDef, myHandler⟩ : ToolEntry)) ∈ sampleRegistry) →
        myToolDef ∈ ToolRegistry.definitions sampleRegistry) ∧
     ToolRegistry.definitionsFor sampleRegistry [] = [] ∧
     ToolRegistry.definitionsFor sampleRegistry ["other_tool", "ghost_tool"] =
       ToolRegistry.definitionsFor sampleRegistry
         (["other_tool", "ghost_tool"].filter
           (fun n => ToolRegistry.has sampleRegistry n)) ∧
     (ToolRegistry.definitionsFor sampleRegistry ["other_tool", "ghost_tool"]).map
         ToolDefinition.name =
       ["other_tool", "ghost_tool"].filter
         (fun n => ToolRegistry.has sampleRegistry n)) := by
  have hwf : ToolRegistry.WF sampleRegistry := by
    intro p hp
    have hs : sampleRegistry =
        [("my_tool", (⟨myToolDef, myHandler⟩ : ToolEntry)),
         ("other_tool", (⟨secondToolDef, myHandler⟩ : ToolEntry))] := rfl
    rw [hs] at hp
    cases hp with
    | head => rfl
    | tail _ hp =>
      cases hp with
      | head => rfl
      | tail _ hp => cases hp
  exact ⟨hwf, claim_C7_theorem sampleRegistry myToolDef myHandler
    ["other_tool", "ghost_tool"] hwf⟩

-- ───────────────────────── Claim C10 ───────────────────────────────────────

/-- C10 (confirmed): with a non-positive iteration budget the engine's `for`
loop never runs: no oracle call is made, no tool is executed, and the result
is the empty string together with the prior messages plus the one new user
message and an empty audit list. -/
theorem claim_C10_theorem :
    ∀ (oracle : Oracle) (r : ToolRegistry) (opts : RunAgentOptions),
    opts.maxIterations ≤ 0 →
    runAgent oracle r opts =
      ⟨"", opts.priorMessages ++ [⟨.user, .str opts.userMessage⟩], []⟩ ∧
    runAgentLLMCalls oracle r opts = 0 := by
  intro oracle r opts hle
  have h0 : opts.maxIterations.toNat = 0 := Int.toNat_of_nonpos hle
  constructor
  · unfold runAgent
    rw [h0]
    rfl
  · unfold runAgentLLMCalls
    rw [h0]
    rfl

/-- Engine options with a negative iteration budget. -/
def c10opts : RunAgentOptions := ⟨"sys", "hello", none, -2, []⟩

/-- An oracle that always answers with plain text. -/
def constOracle : Oracle := fun _ _ => ⟨[ContentBlock.text "hi"]⟩

/-- Witness for C10 at `maxIterations = -2`. -/
theorem claim_C10_witness :
    runAgent constOracle registryOnly c10opts =
      ⟨"", [⟨.user, .str "hello"⟩], []⟩ ∧
    runAgentLLMCalls constOracle registryOnly c10opts = 0 := by
  have h := claim_C10_theorem constOracle registryOnly c10opts (by decide)
  simpa [c10opts] using h

-- ───────────────────────── Claim C9 ────────────────────────────────────────

/-- C9 (confirmed): only the literal method `initialized` is treated as a
notification; every other parsed request — with or without an id — yields
exactly one response, and an unrecognized method yields the `-32601`
method-not-found error carrying the request's (possibly absent) id. -/
theorem claim_C9_theorem :
    ∀ (s : MCPServer) (req : JsonRpcRequest),
    req.method ≠ "initialized" →
    (processRequest s req).isSome = true ∧
    (req.method ∉ ["initialize", "initialized", "tools/list", "tools/call", "ping"] →
      processRequest s req =
        some ⟨req.id, none, some ⟨-32601, "Method not found: " ++ req.method, none⟩⟩) := by
  intro s req hni
  by_cases h1 : req.method = "initialize"
  · constructor
    · simp [processRequest, h1]
    · intro hmem; exact absurd (by rw [h1]; simp) hmem
  by_cases h2 : req.method = "tools/list"
  · constructor
    · simp [processRequest, h2]
    · intro hmem; exact absurd (by rw [h2]; simp) hmem
  by_cases h3 : req.method = "tools/call"
  · constructor
    · simp [processRequest, h3]
    · intro hmem; exact absurd (by rw [h3]; simp) hmem
  by_cases h4 : req.method = "ping"
  · constructor
    · simp [processRequest, h4]
    · intro hmem; exact absurd (by rw [h4]; simp) hmem
  · have hdef : processRequest s req =
        some ⟨req.id, none, some ⟨-32601, "Method not found: " ++ req.method, none⟩⟩ := by
      unfold processRequest
      split
      · exact absurd (by assumption) h1
      · exact absurd (by assumption) hni
      · exact absurd (by assumption) h2
      · exact absurd (by assumption) h3
      · exact absurd (by assumption) h4
      · show (some (JsonRpcResponse.mk req.id none (some (RpcError.mk (-32601)
            ("Method not found: " ++ req.method ++ "") none))) : Option JsonRpcResponse) = _
        rw [String.append_empty]
    exact ⟨by simp [hdef], fun _ => hdef⟩

/-- An id-less request with an unrecognized method. -/
def c9req : JsonRpcRequest := ⟨none, "resources/list", none⟩

/-- Witness for C9: an id-less notification with an unknown method still
provokes a `-32601` response with no id. -/
theorem claim_C9_witness :
    (processRequest devWeaverServer c9req).isSome = true ∧
    ("resources/list" ∉
        ["initialize", "initialized", "tools/list", "tools/call", "ping"] →
      processRequest devWeaverServer c9req =
        some ⟨none, none, some ⟨-32601, "Method not found: " ++ "resources/list", none⟩⟩) :=
  claim_C9_theorem devWeaverServer c9req (by decide)

-- ───────────────────────── Claim C8 ────────────────────────────────────────

/-- C8 (confirmed): tool-name filters match only by exact string equality; a
`runAgent` whose `toolNames` filter matches no registered name exactly (such
as the wildcard-style `code_*`, `bitbucket_*` from the context manager's
spawn helpers) gets the empty tool list, and every oracle call in the run is
made with no tool definitions at all — the run is unchanged if the oracle's
behavior anywhere other than the no-tools argument is replaced. -/
theorem claim_C8_theorem :
    ∀ (r : ToolRegistry) (ns : List String) (opts : RunAgentOptions) (oracle : Oracle),
    opts.toolNames = some ns →
    (∀ n ∈ ns, ToolRegistry.has r n = false) →
    ToolRegistry.definitionsFor r ns = [] ∧
    runAgentToolsArg r opts.toolNames = none ∧
    (∀ oracle₂ : Oracle, (∀ i, oracle i none = oracle₂ i none) →
      runAgent oracle r opts = runAgent oracle₂ r opts ∧
      runAgentLLMCalls oracle r opts = runAgentLLMCalls oracle₂ r opts) := by
  intro r ns opts oracle hopt hnone
  have hfilter : ns.filter (fun n => ToolRegistry.has r n) = [] := by
    rw [List.filter_eq_nil_iff]
    intro n hn
    simp [hnone n hn]
  have hdefs : ToolRegistry.definitionsFor r ns = [] := by
    unfold ToolRegistry.definitionsFor
    rw [hfilter]
    rfl
  have harg0 : runAgentToolsArg r (some ns) = none := by
    show (if (ToolRegistry.definitionsFor r ns).length > 0
        then some (ToolRegistry.definitionsFor r ns) else none) = none
    rw [hdefs]
    rfl
  have harg : runAgentToolsArg r opts.toolNames = none := by
    rw [hopt]
    exact harg0
  refine ⟨hdefs, harg, ?_⟩
  intro oracle₂ hsame
  have hfun : (fun i => oracle i (runAgentToolsArg r opts.toolNames)) =
      (fun i => oracle₂ i (runAgentToolsArg r opts.toolNames)) := by
    funext i
    rw [harg]
    exact hsame i
  constructor
  · unfold runAgent
    rw [hfun]
  · unfold runAgentLLMCalls
    rw [hfun]

/-- A registry holding only fully-qualified code-tool names. -/
def codeRegistry : ToolRegistry :=
  ToolRegistry.register ToolRegistry.empty
    ⟨"code_read_file", "read a file",
     Value.obj [("type", Value.str "object"), ("properties", Value.obj [])]⟩
    myHandler

/-- The researcher options built by `spawnResearcher` with its default
wildcard-style filter. -/
def researcherOpts : RunAgentOptions :=
  ⟨"researcher system prompt", "research goals", some researcherToolNames, 20, []⟩

/-- Witness for C8: the wildcard-style filter matches nothing in
`codeRegistry`, so the oracle never sees a tool. -/
theorem claim_C8_witness :
    ToolRegistry.definitionsFor codeRegistry researcherToolNames = [] ∧
    runAgentToolsArg codeRegistry researcherOpts.toolNames = none ∧
    (∀ oracle₂ : Oracle, (∀ i, constOracle i none = oracle₂ i none) →
      runAgent constOracle codeRegistry researcherOpts =
        runAgent oracle₂ codeRegistry researcherOpts ∧
      runAgentLLMCalls constOracle codeRegistry researcherOpts =
        runAgentLLMCalls oracle₂ codeRegistry researcherOpts) :=
  claim_C8_theorem codeRegistry researcherToolNames researcherOpts constOracle
    rfl (by decide)

-- ───────────────────────── Claim C1 ────────────────────────────────────────

theorem responseToolNames_mk (tools : List Tool) (id : Option RpcId) :
    responseToolNames (handleListTools ⟨tools⟩ id) =
      tools.map (fun t => Value.str t.name) := by
  induction tools with
  | nil => rfl
  | cons t ts ih =>
    show Value.str t.name ::
        (ts.map (fun t => Value.obj
          [("name", Value.str t.name),
           ("description", Value.str t.description),
           ("inputSchema", t.input_schema)])).filterMap
          (fun tv => match tv with
            | .obj tfields => tfields.lookup "name"
            | _ => none) = _
    have ih' := ih
    unfold responseToolNames handleListTools at ih'
    simp only [List.map_cons, List.map]
    rw [show ((ts.map (fun t => Value.obj
          [("name", Value.str t.name),
           ("description", Value.str t.description),
           ("inputSchema", t.input_schema)])).filterMap
          (fun tv => match tv with
            | .obj tfields => tfields.lookup "name"
            | _ => none)) = ts.map (fun t => Value.str t.name) from ih']

/-- C1 (corrected): the MCP server's catalog is the fixed
`getDevWeaverTools()` list snapshotted at construction, not the Tool
Registry. A tool registered only in the Tool Registry (`my_tool`, whose
in-process `execute` succeeds) is absent from the server's `tools/list`
names and its `tools/call` returns the `-32602` tool-not-found error —
refuting the claimed round-trip over every registry tool. -/
theorem claim_C1_counterexample :
    ToolRegistry.has registryOnly "my_tool" = true ∧
    ToolRegistry.execute registryOnly "my_tool" Value.null =
      .ok (Value.str "registry result") ∧
    responseToolNames (handleListTools devWeaverServer (some (.num 1))) =
      devWeaverToolNames.map Value.str ∧
    "my_tool" ∉ devWeaverToolNames ∧
    handleCallTool devWeaverServer (some (.num 1))
        (some (Value.obj [("name", Value.str "my_tool"), ("arguments", Value.obj [])])) =
      ⟨some (.num 1), none, some ⟨-32602, "Tool not found: my_tool", none⟩⟩ :=
  ⟨rfl, rfl, rfl, by decide, rfl⟩

/-- C1 (amended): the round-trip holds for the server's own catalog: every
tool of the constructed server is listed by `tools/list`, and `tools/call`
on it produces exactly the wrap (single text content block, non-string
results stringified) of the handler's outcome — which coincides with the
Tool Registry's in-process `execute` whenever the same (name, handler) pair
is registered there. Tools present only in the registry are invisible to
the server. -/
theorem claim_C1_theorem :
    ∀ (s : MCPServer) (r : ToolRegistry) (t : Tool) (id : Option RpcId) (args : Value),
    s.tools.find? (fun t' => some (Value.str t.name) == some (Value.str t'.name)) =
      some t →
    (∀ input, ToolRegistry.execute r t.name input = t.execute input) →
    Value.str t.name ∈ responseToolNames (handleListTools s id) ∧
    handleCallTool s id
        (some (Value.obj [("name", Value.str t.name), ("arguments", args)])) =
      wrapCallOutcome id (ToolRegistry.execute r t.name args) := by
  intro s r t id args hfind hexec
  constructor
  · obtain ⟨tools⟩ := s
    rw [responseToolNames_mk]
    exact List.mem_map_of_mem _ (List.mem_of_find?_eq_some hfind)
  · show (match s.tools.find? (fun t' => some (Value.str t.name) == some (Value.str t'.name)) with
      | none => (⟨id, none, some ⟨-32602,
          s!"Tool not found: {jsString (some (Value.str t.name))}", none⟩⟩ : JsonRpcResponse)
      | some t' => wrapCallOutcome id (t'.execute args)) = _
    rw [hfind, hexec args]

/-- The echo tool used to witness the amended C1 round-trip. -/
def echoTool : Tool :=
  ⟨"echo_tool", "echoes its input",
   Value.obj [("type", Value.str "object"), ("properties", Value.obj [])],
   fun v => .ok v⟩

/-- A server whose catalog is just the echo tool. -/
def echoServer : MCPServer := ⟨[echoTool]⟩

/-- A registry holding the same (name, handler) pair as `echoServer`. -/
def echoRegistry : ToolRegistry :=
  ToolRegistry.register ToolRegistry.empty
    ⟨"echo_tool", "echoes its input",
     Value.obj [("type", Value.str "object"), ("properties", Value.obj [])]⟩
    echoTool.execute

/-- Witness for C1's amended round-trip on the echo tool. -/
theorem claim_C1_witness :
    Value.str "echo_tool" ∈
      responseToolNames (handleListTools echoServer (some (.num 7))) ∧
    handleCallTool echoServer (some (.num 7))
        (some (Value.obj
          [("name", Value.str "echo_tool"), ("arguments", Value.str "ping")])) =
      wrapCallOutcome (some (.num 7))
        (ToolRegistry.execute echoRegistry "echo_tool" (Value.str "ping")) :=
  claim_C1_theorem echoServer echoRegistry echoTool (some (.num 7))
    (Value.str "ping") rfl (fun _ => rfl)

-- ───────────────────────── Claim C5 ────────────────────────────────────────

theorem ClientWF.filter (st : ClientState) (p : Nat × String → Bool)
    (h : ClientWF st) : ClientWF { st with pending := st.pending.filter p } := by
  obtain ⟨hnodup, hbound⟩ := h
  constructor
  · exact List.Nodup.sublist ((List.filter_sublist st.pending).map Prod.fst) hnodup
  · intro q hq
    exact hbound q (List.mem_of_mem_filter hq)

/-- C5 (confirmed): for a well-formed client state — at most one pending
entry per id, ids bounded by the counter — the timeout firing for a pending
request removes exactly that entry and rejects it with the timeout error
while leaving the connection alive; a response with that id arriving
afterwards (or any response whose id is not pending) is ignored without
state change; and the well-formedness (hence the exactly-one-entry-per-id
invariant) is preserved by sending, receiving, and timing out. -/
theorem claim_C5_theorem :
    ∀ (st : ClientState) (id : Nat) (method : String) (err : Option String) (res : Value),
    ClientWF st →
    (((id, method) ∈ st.pending →
       onTimeoutFire st id method =
         ({ st with pending := st.pending.filter (fun p => !(p.1 == id)) },
          [Outcome.rejected id s!"MCP request timed out: {method}"]) ∧
       (∀ q, (id, q) ∉ (onTimeoutFire st id method).1.pending) ∧
       (onTimeoutFire st id method).1.processAlive = st.processAlive ∧
       onMessage (onTimeoutFire st id method).1 (.msg (some id) err res) =
         ((onTimeoutFire st id method).1, [])) ∧
     ((∀ q, (id, q) ∉ st.pending) →
        onMessage st (.msg (some id) err res) = (st, [])) ∧
     ClientWF (sendRequest st method).1 ∧
     ClientWF (onMessage st (.msg (some id) err res)).1 ∧
     ClientWF (onTimeoutFire st id method).1) := by
  intro st id method err res hwf
  have hnotpend : ∀ (st' : ClientState), (∀ q, (id, q) ∉ st'.pending) →
      st'.pending.any (fun p => p.1 == id) = false := by
    intro st' hq
    rw [List.any_eq_false]
    intro p hp
    simp only [beq_iff_eq]
    intro hid
    exact hq p.2 (by rw [← hid]; exact hp)
  refine ⟨?_, ?_, ?_, ?_, ?_⟩
  · intro hmem
    have hany : st.pending.any (fun p => p.1 == id) = true :=
      List.any_eq_true.mpr ⟨(id, method), hmem, by simp⟩
    have hfire : onTimeoutFire st id method =
        ({ st with pending := st.pending.filter (fun p => !(p.1 == id)) },
         [Outcome.rejected id s!"MCP request timed out: {method}"]) := by
      unfold onTimeoutFire
      rw [hany]
      rfl
    have hgone : ∀ q, (id, q) ∉ (onTimeoutFire st id method).1.pending := by
      intro q hq
      rw [hfire] at hq
      have := List.of_mem_filter hq
      simp at this
    refine ⟨hfire, hgone, by rw [hfire], ?_⟩
    have hany2 : ((onTimeoutFire st id method).1.pending.any (fun p => p.1 == id)) =
        false := hnotpend _ hgone
    simp only [onMessage, hany2]
    simp
  · intro hq
    have hany : st.pending.any (fun p => p.1 == id) = false := hnotpend st hq
    simp only [onMessage, hany]
    simp
  · obtain ⟨hnodup, hbound⟩ := hwf
    constructor
    · show ((st.pending ++ [(st.requestId + 1, method)]).map Prod.fst).Nodup
      rw [List.map_append]
      apply List.Nodup.append hnodup (by simp)
      intro a ha hb
      simp only [List.map_cons, List.map_nil, List.mem_singleton] at hb
      obtain ⟨p, hp, hpa⟩ := List.mem_map.mp ha
      have := hbound p hp
      omega
    · intro p hp
      show p.1 ≤ st.requestId + 1
      rcases List.mem_append.mp hp with h | h
      · have := hbound p h
        omega
      · simp only [List.mem_singleton] at h
        rw [h]
  · by_cases hany : st.pending.any (fun p => p.1 == id) = true
    · simp only [onMessage, hany, if_true]
      exact ClientWF.filter st _ hwf
    · rw [Bool.not_eq_true] at hany
      simp only [onMessage, hany]
      simpa using hwf
  · by_cases hany : st.pending.any (fun p => p.1 == id) = true
    · simp only [onTimeoutFire, hany, if_true]
      exact ClientWF.filter st _ hwf
    · rw [Bool.not_eq_true] at hany
      simp only [onTimeoutFire, hany]
      simpa using hwf

/-- A client state with two outstanding requests. -/
def c5state : ClientState := ⟨2, [(1, "initialize"), (2, "tools/list")], true⟩

/-- Witness for C5 on a concrete two-request state, timing out request 1. -/
theorem claim_C5_witness :
    (((1, "initialize") ∈ c5state.pending →
       onTimeoutFire c5state 1 "initialize" =
         ({ c5state with
              pending := c5state.pending.filter (fun p => !(p.1 == 1)) },
          [Outcome.rejected 1 "MCP request timed out: initialize"]) ∧
       (∀ q, (1, q) ∉ (onTimeoutFire c5state 1 "initialize").1.pending) ∧
       (onTimeoutFire c5state 1 "initialize").1.processAlive = c5state.processAlive ∧
       onMessage (onTimeoutFire c5state 1 "initialize").1 (.msg (some 1) none Value.null) =
         ((onTimeoutFire c5state 1 "initialize").1, [])) ∧
     ((∀ q, (1, q) ∉ c5state.pending) →
        onMessage c5state (.msg (some 1) none Value.null) = (c5state, [])) ∧
     ClientWF (sendRequest c5state "initialize").1 ∧
     ClientWF (onMessage c5state (.msg (some 1) none Value.null)).1 ∧
     ClientWF (onTimeoutFire c5state 1 "initialize").1) :=
  claim_C5_theorem c5state 1 "initialize" none Value.null
    ⟨by decide, by decide⟩

-- ───────────────────────── Claim C6 ────────────────────────────────────────

/-- The highest trigger score any catalog agent attains on a message. -/
def maxCatalogScore (msg : String) : Nat :=
  (SUB_AGENTS.map (fun p => agentScore (toLowerJS msg) p.2)).foldr max 0

theorem le_foldrMax (l : List Nat) (a : Nat) (h : a ∈ l) : a ≤ l.foldr max 0 := by
  induction l with
  | nil => cases h
  | cons x rest ih =>
    cases h with
    | head => exact Nat.le_max_left _ _
    | tail _ h => exact Nat.le_trans (ih h) (Nat.le_max_right _ _)

theorem foldrMax_mem (l : List Nat) (h : l.foldr max 0 ≠ 0) : l.foldr max 0 ∈ l := by
  induction l with
  | nil => exact absurd rfl h
  | cons x rest ih =>
    show max x (rest.foldr max 0) ∈ x :: rest
    by_cases hx : rest.foldr max 0 ≤ x
    · rw [Nat.max_eq_left hx]
      exact List.mem_cons_self x rest
    · have hmax : max x (rest.foldr max 0) = rest.foldr max 0 :=
        Nat.max_eq_right (Nat.le_of_not_le hx)
      rw [hmax]
      refine List.mem_cons_of_mem x (ih ?_)
      have hfold : List.foldr max 0 (x :: rest) = max x (List.foldr max 0 rest) := rfl
      rw [hfold, hmax] at h
      exact h

theorem quickFold_spec (lower : String) :
    ∀ (l : List (String × SubAgentDef)) (bm : Option String) (bs : Nat),
    ((l.map (fun p => agentScore lower p.2)).foldr max 0 ≤ bs →
      l.foldl (fun acc entry =>
        let score := agentScore lower entry.2
        if score > acc.2 then (some entry.1, score) else acc) (bm, bs) = (bm, bs)) ∧
    (bs < (l.map (fun p => agentScore lower p.2)).foldr max 0 →
      l.foldl (fun acc entry =>
        let score := agentScore lower entry.2
        if score > acc.2 then (some entry.1, score) else acc) (bm, bs) =
        ((l.find? (fun p => agentScore lower p.2 ==
            (l.map (fun p => agentScore lower p.2)).foldr max 0)).map Prod.fst,
         (l.map (fun p => agentScore lower p.2)).foldr max 0)) := by
  intro l
  induction l with
  | nil =>
    intro bm bs
    exact ⟨fun _ => rfl, fun h => absurd h (by simp)⟩
  | cons x rest ih =>
    intro bm bs
    set s := agentScore lower x.2 with hs
    set M' := (rest.map (fun p => agentScore lower p.2)).foldr max 0 with hM'
    have hfold : (((x :: rest).map (fun p => agentScore lower p.2)).foldr max 0) =
        max s M' := rfl
    constructor
    · intro hle
      rw [hfold] at hle
      have hsbs : ¬ s > bs := by omega
      rw [List.foldl_cons]
      simp only [hsbs, if_false]
      exact (ih bm bs).1 (by omega)
    · intro hlt
      rw [hfold] at hlt
      rw [List.foldl_cons]
      by_cases hsb : s > bs
      · simp only [hsb, if_true]
        by_cases hM's : M' ≤ s
        · have hmax : max s M' = s := Nat.max_eq_left hM's
          have h1 := (ih (some x.1) s).1 hM's
          rw [h1]
          rw [List.find?_cons_of_pos _ (by rw [hfold, hmax]; exact beq_self_eq_true s)]
          rw [hfold, hmax]
          rfl
        · have hsM' : s < M' := by omega
          have hmax : max s M' = M' := Nat.max_eq_right (by omega)
          have h2 := (ih (some x.1) s).2 hsM'
          rw [h2]
          rw [List.find?_cons_of_neg _ (by rw [hfold, hmax]; simp; omega)]
          rw [hfold, hmax]
      · simp only [hsb, if_false]
        have hsbs : s ≤ bs := by omega
        have hM : max s M' = M' := by omega
        have h2 := (ih bm bs).2 (by omega)
        rw [h2]
        rw [List.find?_cons_of_neg _ (by rw [hfold, hM]; simp; omega)]
        rw [hfold, hM]

/-- C6 (confirmed): `quickRoute` is the pure scoring router: each Sub-Agent
is scored by summing `trigger.split(' ').length` over the triggers that are
substrings of the lowercased message; the returned key is that of the first
catalog agent attaining the maximum score (only a strictly greater score
replaces the current best), and `null` is returned exactly when every
agent's score is zero; on the spec's examples it routes to
`jira_management`, `code_test`, and `null` respectively. -/
theorem claim_C6_theorem :
    (∀ msg : String, quickRoute msg =
      (if maxCatalogScore msg = 0 then none
       else (SUB_AGENTS.find? (fun p =>
          agentScore (toLowerJS msg) p.2 == maxCatalogScore msg)).map Prod.fst)) ∧
    (∀ msg : String, quickRoute msg = none ↔
      ∀ p ∈ SUB_AGENTS, agentScore (toLowerJS msg) p.2 = 0) ∧
    quickRoute "create a jira ticket" = some "jira_management" ∧
    quickRoute "write unit tests for auth" = some "code_test" ∧
    quickRoute "completely unrelated gibberish xyz" = none := by
  have hmain : ∀ msg : String, quickRoute msg =
      (if maxCatalogScore msg = 0 then none
       else (SUB_AGENTS.find? (fun p =>
          agentScore (toLowerJS msg) p.2 == maxCatalogScore msg)).map Prod.fst) := by
    intro msg
    by_cases hM : maxCatalogScore msg = 0
    · rw [if_pos hM]
      simp only [quickRoute]
      have h1 := (quickFold_spec (toLowerJS msg) SUB_AGENTS none 0).1 (by
        show maxCatalogScore msg ≤ 0
        omega)
      rw [h1]
      rfl
    · rw [if_neg hM]
      simp only [quickRoute, maxCatalogScore] at hM ⊢
      have h2 := (quickFold_spec (toLowerJS msg) SUB_AGENTS none 0).2 (by omega)
      rw [h2]
      simp only [gt_iff_lt]
      rw [if_pos (by omega)]
  refine ⟨hmain, ?_, by decide, by decide, by decide⟩
  intro msg
  rw [hmain msg]
  by_cases hM : maxCatalogScore msg = 0
  · rw [if_pos hM]
    simp only [true_iff]
    intro p hp
    have hle := le_foldrMax _ (agentScore (toLowerJS msg) p.2)
      (List.mem_map_of_mem (fun p => agentScore (toLowerJS msg) p.2) hp)
    rw [show (SUB_AGENTS.map (fun p => agentScore (toLowerJS msg) p.2)).foldr max 0 =
      maxCatalogScore msg from rfl, hM] at hle
    omega
  · rw [if_neg hM]
    have hmem : maxCatalogScore msg ∈
        SUB_AGENTS.map (fun p => agentScore (toLowerJS msg) p.2) :=
      foldrMax_mem _ hM
    obtain ⟨p, hp, hpscore⟩ := List.mem_map.mp hmem
    have hfind : (SUB_AGENTS.find? (fun p =>
        agentScore (toLowerJS msg) p.2 == maxCatalogScore msg)).isSome := by
      rw [List.find?_isSome]
      exact ⟨p, hp, by rw [hpscore]; exact beq_self_eq_true _⟩
    obtain ⟨q, hq⟩ := Option.isSome_iff_exists.mp hfind
    rw [hq]
    constructor
    · intro h
      exact absurd h (by simp)
    · intro hall
      exact absurd hpscore (by rw [hall p hp]; omega)

-- ───────────────────────── Claim C3 ────────────────────────────────────────

/-- The last non-empty extracted text among the replies with call indices
`c, c + 1, …, c + fuel - 1`, defaulting to `acc`: the closed form of the
engine's running candidate final answer. -/
def candRange (oracle : Nat → LLMResponse) (c : Nat) : Nat → String → String
  | 0, acc => acc
  | fuel + 1, acc =>
    let t := extractText (oracle (c + fuel))
    if t ≠ "" then t else candRange oracle c fuel acc

theorem candRange_shift (oracle : Nat → LLMResponse) :
    ∀ (fuel c : Nat) (acc : String),
    candRange oracle c (fuel + 1) acc =
      candRange oracle (c + 1) fuel
        (if extractText (oracle c) ≠ "" then extractText (oracle c) else acc) := by
  intro fuel
  induction fuel with
  | zero =>
    intro c acc
    simp [candRange]
  | succ fuel ih =>
    intro c acc
    show (if extractText (oracle (c + (fuel + 1))) ≠ ""
        then extractText (oracle (c + (fuel + 1)))
        else candRange oracle c (fuel + 1) acc) = _
    rw [ih c acc]
    show _ = (if extractText (oracle (c + 1 + fuel)) ≠ ""
        then extractText (oracle (c + 1 + fuel))
        else candRange oracle (c + 1) fuel
          (if extractText (oracle c) ≠ "" then extractText (oracle c) else acc))
    rw [show c + 1 + fuel = c + (fuel + 1) by omega]

theorem runAgentLoop_count_text (oracle : Nat → LLMResponse) (r : ToolRegistry)
    (htool : ∀ i, extractToolUse (oracle i) ≠ []) :
    ∀ (fuel : Nat) (st : EngineState),
    (runAgentLoop oracle r fuel st).llmCalls = st.llmCalls + fuel ∧
    (runAgentLoop oracle r fuel st).finalText =
      candRange oracle st.llmCalls fuel st.finalText := by
  intro fuel
  induction fuel with
  | zero =>
    intro st
    exact ⟨rfl, rfl⟩
  | succ fuel ih =>
    intro st
    have hemp : (extractToolUse (oracle st.llmCalls)).isEmpty = false := by
      rw [List.isEmpty_eq_false]
      exact htool st.llmCalls
    simp only [runAgentLoop, hemp, Bool.false_eq_true, if_false]
    obtain ⟨hcount, htext⟩ := ih
      { messages := (st.messages ++ [⟨.assistant, .blocks (oracle st.llmCalls).content⟩]) ++
          [⟨.user, .blocks ((extractToolUse (oracle st.llmCalls)).map (toolResultBlock r))⟩],
        toolCalls := st.toolCalls ++
          (extractToolUse (oracle st.llmCalls)).map (fun tu => ⟨tu.name, tu.input⟩),
        finalText := if extractText (oracle st.llmCalls) ≠ ""
          then extractText (oracle st.llmCalls) else st.finalText,
        llmCalls := st.llmCalls + 1 }
    constructor
    · rw [hcount]
      show st.llmCalls + 1 + fuel = st.llmCalls + (fuel + 1)
      omega
    · rw [htext]
      rw [candRange_shift]

/-- C3 (confirmed): an oracle requesting at least one tool invocation on
every turn drives the engine through exactly `maxIterations` oracle calls
(the loop body, hence one `callLLM`, runs once per budget unit), after which
`runAgent` returns normally — the embedding is a total function, matching
the source where the loop simply exits — with the last non-empty candidate
answer (the empty string when no reply carried text) as its result. -/
theorem claim_C3_theorem :
    ∀ (oracle : Oracle) (r : ToolRegistry) (opts : RunAgentOptions),
    (∀ i targ, extractToolUse (oracle i targ) ≠ []) →
    runAgentLLMCalls oracle r opts = opts.maxIterations.toNat ∧
    (runAgent oracle r opts).result =
      candRange (fun i => oracle i (runAgentToolsArg r opts.toolNames)) 0
        opts.maxIterations.toNat "" := by
  intro oracle r opts htool
  obtain ⟨hcount, htext⟩ := runAgentLoop_count_text
    (fun i => oracle i (runAgentToolsArg r opts.toolNames)) r
    (fun i => htool i _) opts.maxIterations.toNat (initialState opts)
  refine ⟨?_, htext⟩
  show (runAgentLoop (fun i => oracle i (runAgentToolsArg r opts.toolNames)) r
    opts.maxIterations.toNat (initialState opts)).llmCalls = opts.maxIterations.toNat
  rw [hcount]
  show 0 + opts.maxIterations.toNat = opts.maxIterations.toNat
  omega

/-- An oracle that requests a no-op tool call on every turn. -/
def alwaysToolOracle : Oracle := fun _ _ =>
  ⟨[ContentBlock.text "working", ContentBlock.toolUse "t1" "noop_tool" Value.null]⟩

/-- Engine options with a budget of three iterations. -/
def c3opts : RunAgentOptions := ⟨"sys", "go", none, 3, []⟩

/-- Witness for C3: three oracle calls are made and the run returns the last
candidate answer. -/
theorem claim_C3_witness :
    runAgentLLMCalls alwaysToolOracle registryOnly c3opts = 3 ∧
    (runAgent alwaysToolOracle registryOnly c3opts).result =
      candRange (fun i => alwaysToolOracle i
        (runAgentToolsArg registryOnly c3opts.toolNames)) 0 3 "" := by
  have h := claim_C3_theorem alwaysToolOracle registryOnly c3opts
    (by intro i targ; simp [alwaysToolOracle, extractToolUse, toolUsesIn])
  simpa [c3opts] using h

-- ───────────────────────── Claim C4 ────────────────────────────────────────

theorem runAgentLoop_toolCalls_mono (oracle : Nat → LLMResponse) (r : ToolRegistry) :
    ∀ (fuel : Nat) (st : EngineState),
    ∃ tail, (runAgentLoop oracle r fuel st).toolCalls = st.toolCalls ++ tail := by
  intro fuel
  induction fuel with
  | zero =>
    intro st
    exact ⟨[], by simp [runAgentLoop]⟩
  | succ fuel ih =>
    intro st
    by_cases hemp : (extractToolUse (oracle st.llmCalls)).isEmpty = true
    · exact ⟨[], by simp [runAgentLoop, hemp]⟩
    · rw [Bool.not_eq_true] at hemp
      simp only [runAgentLoop, hemp, Bool.false_eq_true, if_false]
      obtain ⟨tail, htail⟩ := ih
        { messages := (st.messages ++ [⟨.assistant, .blocks (oracle st.llmCalls).content⟩]) ++
            [⟨.user, .blocks ((extractToolUse (oracle st.llmCalls)).map (toolResultBlock r))⟩],
          toolCalls := st.toolCalls ++
            (extractToolUse (oracle st.llmCalls)).map (fun tu => ⟨tu.name, tu.input⟩),
          finalText := if extractText (oracle st.llmCalls) ≠ ""
            then extractText (oracle st.llmCalls) else st.finalText,
          llmCalls := st.llmCalls + 1 }
      exact ⟨(extractToolUse (oracle st.llmCalls)).map (fun tu => ⟨tu.name, tu.input⟩) ++ tail,
        by rw [htail, List.append_assoc]⟩

/-- C4 (confirmed): on any turn whose reply requests tools, the engine takes
one more loop step: every requested invocation yields its own tool-result
block (a throwing handler is caught and replaced by the stringified
`{error: message}` object; a succeeding one by its own, possibly
stringified, result), all requested calls are appended to the audit list —
and remain in the final run's audit list — and the loop recurses instead of
aborting. -/
theorem claim_C4_theorem :
    ∀ (oracle : Nat → LLMResponse) (r : ToolRegistry) (fuel : Nat) (st : EngineState)
      (tus : List ToolUseBlock),
    extractToolUse (oracle st.llmCalls) = tus →
    tus ≠ [] →
    (runAgentLoop oracle r (fuel + 1) st =
      runAgentLoop oracle r fuel
        { messages := st.messages ++
            [⟨.assistant, .blocks (oracle st.llmCalls).content⟩,
             ⟨.user, .blocks (tus.map (toolResultBlock r))⟩],
          toolCalls := st.toolCalls ++ tus.map (fun tu => ⟨tu.name, tu.input⟩),
          finalText := if extractText (oracle st.llmCalls) ≠ ""
            then extractText (oracle st.llmCalls) else st.finalText,
          llmCalls := st.llmCalls + 1 }) ∧
    (∀ tu ∈ tus, ∀ m, ToolRegistry.execute r tu.name tu.input = .error m →
      toolResultBlock r tu = ContentBlock.toolResult tu.id
        (Value.stringify (Value.obj [("error", Value.str m)]))) ∧
    (∀ tu ∈ tus, ∀ v, ToolRegistry.execute r tu.name tu.input = .ok v →
      toolResultBlock r tu = ContentBlock.toolResult tu.id
        (match v with
          | .str s => s
          | v => Value.stringify v)) ∧
    (∀ tu ∈ tus, (⟨tu.name, tu.input⟩ : ToolCall) ∈
      (runAgentLoop oracle r (fuel + 1) st).toolCalls) := by
  intro oracle r fuel st tus htus hne
  have hemp : tus.isEmpty = false := by
    rw [List.isEmpty_eq_false]
    exact hne
  have hstep : runAgentLoop oracle r (fuel + 1) st =
      runAgentLoop oracle r fuel
        { messages := st.messages ++
            [⟨.assistant, .blocks (oracle st.llmCalls).content⟩,
             ⟨.user, .blocks (tus.map (toolResultBlock r))⟩],
          toolCalls := st.toolCalls ++ tus.map (fun tu => ⟨tu.name, tu.input⟩),
          finalText := if extractText (oracle st.llmCalls) ≠ ""
            then extractText (oracle st.llmCalls) else st.finalText,
          llmCalls := st.llmCalls + 1 } := by
    simp only [runAgentLoop, htus, hemp, Bool.false_eq_true, if_false]
    congr 1
    simp [List.append_assoc]
  refine ⟨hstep, ?_, ?_, ?_⟩
  · intro tu _ m hm
    unfold toolResultBlock
    rw [hm]
  · intro tu _ v hv
    unfold toolResultBlock
    rw [hv]
  · intro tu htu
    rw [hstep]
    obtain ⟨tail, htail⟩ := runAgentLoop_toolCalls_mono oracle r fuel
      { messages := st.messages ++
          [⟨.assistant, .blocks (oracle st.llmCalls).content⟩,
           ⟨.user, .blocks (tus.map (toolResultBlock r))⟩],
        toolCalls := st.toolCalls ++ tus.map (fun tu => ⟨tu.name, tu.input⟩),
        finalText := if extractText (oracle st.llmCalls) ≠ ""
          then extractText (oracle st.llmCalls) else st.finalText,
        llmCalls := st.llmCalls + 1 }
    rw [htail]
    refine List.mem_append_left _ (List.mem_append_right _ ?_)
    exact List.mem_map_of_mem _ htu

/-- A handler that always throws. -/
def failHandler : Handler := fun _ => .error "boom"

/-- A registry with one succeeding and one throwing tool. -/
def c4registry : ToolRegistry :=
  ToolRegistry.register
    (ToolRegistry.register ToolRegistry.empty
      ⟨"good_tool", "succeeds",
       Value.obj [("type", Value.str "object"), ("properties", Value.obj [])]⟩
      (fun _ => .ok (Value.str "fine")))
    ⟨"bad_tool", "throws",
     Value.obj [("type", Value.str "object"), ("properties", Value.obj [])]⟩
    failHandler

/-- A turn requesting both tools at once (then stopping). -/
def c4oracle : Nat → LLMResponse := fun i =>
  match i with
  | 0 => ⟨[ContentBlock.toolUse "a" "good_tool" Value.null,
           ContentBlock.toolUse "b" "bad_tool" Value.null]⟩
  | _ => ⟨[ContentBlock.text "done"]⟩

/-- The two requested tool-use blocks of the first turn. -/
def c4tus : List ToolUseBlock :=
  [⟨"a", "good_tool", Value.null⟩, ⟨"b", "bad_tool", Value.null⟩]

/-- Witness for C4 on the mixed success/failure turn. -/
theorem claim_C4_witness :
    (runAgentLoop c4oracle c4registry 2 (initialState c3opts) =
      runAgentLoop c4oracle c4registry 1
        { messages := (initialState c3opts).messages ++
            [⟨.assistant, .blocks (c4oracle (initialState c3opts).llmCalls).content⟩,
             ⟨.user, .blocks (c4tus.map (toolResultBlock c4registry))⟩],
          toolCalls := (initialState c3opts).toolCalls ++
            c4tus.map (fun tu => ⟨tu.name, tu.input⟩),
          finalText := if extractText (c4oracle (initialState c3opts).llmCalls) ≠ ""
            then extractText (c4oracle (initialState c3opts).llmCalls)
            else (initialState c3opts).finalText,
          llmCalls := (initialState c3opts).llmCalls + 1 }) ∧
    (∀ tu ∈ c4tus, ∀ m, ToolRegistry.execute c4registry tu.name tu.input = .error m →
      toolResultBlock c4registry tu = ContentBlock.toolResult tu.id
        (Value.stringify (Value.obj [("error", Value.str m)]))) ∧
    (∀ tu ∈ c4tus, ∀ v, ToolRegistry.execute c4registry tu.name tu.input = .ok v →
      toolResultBlock c4registry tu = ContentBlock.toolResult tu.id
        (match v with
          | .str s => s
          | v => Value.stringify v)) ∧
    (∀ tu ∈ c4tus, (⟨tu.name, tu.input⟩ : ToolCall) ∈
      (runAgentLoop c4oracle c4registry 2 (initialState c3opts)).toolCalls) :=
  claim_C4_theorem c4oracle c4registry 1 (initialState c3opts) c4tus rfl (by simp [c4tus])

-- ───────────────────────── Claim C2 ────────────────────────────────────────

theorem pairedBool_append_single :
    ∀ (ms : List Message) (a : Message),
    pairedBool ms = true → (pendingToolUses a).isEmpty = true →
    pairedBool (ms ++ [a]) = true := by
  intro ms
  induction ms with
  | nil =>
    intro a _ ha
    simpa [pairedBool] using ha
  | cons m rest ih =>
    intro a h ha
    cases rest with
    | nil =>
      have hm : (pendingToolUses m).isEmpty = true := by
        simpa [pairedBool] using h
      show pairedBool [m, a] = true
      simp [pairedBool, hm, ha]
    | cons m' rest' =>
      have h' : pairedBool (m' :: rest') = true := by
        have := h
        simp only [pairedBool, Bool.and_eq_true] at this
        exact this.2
      have hhead : ((pendingToolUses m).isEmpty ||
          (decide (m'.role = .user) &&
            (pendingToolUses m).all (fun tu => resultCount m' tu.id == 1))) = true := by
        have := h
        simp only [pairedBool, Bool.and_eq_true] at this
        exact this.1
      show pairedBool (m :: m' :: (rest' ++ [a])) = true
      simp only [pairedBool, Bool.and_eq_true]
      exact ⟨hhead, by simpa using ih a h' ha⟩

theorem pairedBool_append_pair :
    ∀ (ms : List Message) (a u : Message),
    pairedBool ms = true →
    u.role = .user →
    (pendingToolUses u).isEmpty = true →
    ((pendingToolUses a).all (fun tu => resultCount u tu.id == 1)) = true →
    pairedBool (ms ++ [a, u]) = true := by
  intro ms
  induction ms with
  | nil =>
    intro a u _ hrole hu hall
    show pairedBool [a, u] = true
    simp [pairedBool, hrole, hu, hall]
  | cons m rest ih =>
    intro a u h hrole hu hall
    cases rest with
    | nil =>
      have hm : (pendingToolUses m).isEmpty = true := by
        simpa [pairedBool] using h
      show pairedBool [m, a, u] = true
      simp only [pairedBool, Bool.and_eq_true]
      exact ⟨by simp [hm], by simp [hrole, hu, hall]⟩
    | cons m' rest' =>
      have h' : pairedBool (m' :: rest') = true := by
        have := h
        simp only [pairedBool, Bool.and_eq_true] at this
        exact this.2
      have hhead : ((pendingToolUses m).isEmpty ||
          (decide (m'.role = .user) &&
            (pendingToolUses m).all (fun tu => resultCount m' tu.id == 1))) = true := by
        have := h
        simp only [pairedBool, Bool.and_eq_true] at this
        exact this.1
      show pairedBool (m :: m' :: (rest' ++ [a, u])) = true
      simp only [pairedBool, Bool.and_eq_true]
      exact ⟨hhead, by simpa using ih a u h' hrole hu hall⟩

theorem toolResultBlock_shape (r : ToolRegistry) (tu : ToolUseBlock) :
    ∃ s, toolResultBlock r tu = ContentBlock.toolResult tu.id s := by
  unfold toolResultBlock
  exact ⟨_, rfl⟩

theorem toolResults_ids (r : ToolRegistry) :
    ∀ tus : List ToolUseBlock,
    (tus.map (toolResultBlock r)).filterMap
      (fun b => match b with
        | .toolResult j _ => some j
        | _ => none) = tus.map ToolUseBlock.id := by
  intro tus
  induction tus with
  | nil => rfl
  | cons tu rest ih =>
    obtain ⟨s, hs⟩ := toolResultBlock_shape r tu
    rw [List.map_cons, hs, List.filterMap_cons]
    exact congrArg (List.cons tu.id) ih

theorem resultCount_toolResults (r : ToolRegistry) (tus : List ToolUseBlock) (i : String) :
    resultCount ⟨.user, .blocks (tus.map (toolResultBlock r))⟩ i =
      (tus.map ToolUseBlock.id).count i := by
  show ((tus.map (toolResultBlock r)).filterMap
    (fun b => match b with
      | .toolResult j _ => some j
      | _ => none)).count i = _
  rw [toolResults_ids]

/-- The pairing invariant is preserved by the agent engine's loop when every
reply uses pairwise-distinct tool-use ids. -/
theorem runAgentLoop_paired (oracle : Nat → LLMResponse) (r : ToolRegistry)
    (hids : ∀ i, ((extractToolUse (oracle i)).map ToolUseBlock.id).Nodup) :
    ∀ (fuel : Nat) (st : EngineState), pairedBool st.messages = true →
    pairedBool (runAgentLoop oracle r fuel st).messages = true := by
  intro fuel
  induction fuel with
  | zero =>
    intro st h
    exact h
  | succ fuel ih =>
    intro st h
    by_cases hemp : (extractToolUse (oracle st.llmCalls)).isEmpty = true
    · simp only [runAgentLoop, hemp, if_true]
      exact pairedBool_append_single st.messages _ h (by
        show (pendingToolUses ⟨.assistant, .blocks (oracle st.llmCalls).content⟩).isEmpty = true
        exact hemp)
    · rw [Bool.not_eq_true] at hemp
      simp only [runAgentLoop, hemp, Bool.false_eq_true, if_false]
      apply ih
      show pairedBool ((st.messages ++ [⟨.assistant, .blocks (oracle st.llmCalls).content⟩]) ++
        [⟨.user, .blocks ((extractToolUse (oracle st.llmCalls)).map (toolResultBlock r))⟩]) = true
      rw [List.append_assoc]
      apply pairedBool_append_pair st.messages _ _ h rfl (by rfl)
      rw [List.all_eq_true]
      intro tu htu
      have hcount : ((extractToolUse (oracle st.llmCalls)).map ToolUseBlock.id).count tu.id = 1 :=
        List.count_eq_one_of_mem (hids st.llmCalls) (List.mem_map_of_mem ToolUseBlock.id htu)
      have := resultCount_toolResults r (extractToolUse (oracle st.llmCalls)) tu.id
      rw [hcount] at this
      simpa using this

theorem processDelegations_ids (subFn : SubFn) :
    ∀ (tus : List ToolUseBlock),
    (∀ tu ∈ tus, tu.name = "delegate_to_agent") →
    ((processDelegations subFn tus).1.filterMap
      (fun b => match b with
        | .toolResult j _ => some j
        | _ => none)) = tus.map ToolUseBlock.id := by
  intro tus
  induction tus with
  | nil =>
    intro _
    rfl
  | cons tu rest ih =>
    intro hall
    have hname : tu.name = "delegate_to_agent" := hall tu (List.mem_cons_self tu rest)
    have ihr := ih (fun t ht => hall t (List.mem_cons_of_mem tu ht))
    show ((processDelegations subFn (tu :: rest)).1.filterMap
      (fun b => match b with
        | .toolResult j _ => some j
        | _ => none)) = tu.id :: rest.map ToolUseBlock.id
    simp only [processDelegations, hname, if_pos]
    by_cases hfound : ((SUB_AGENTS.find? (fun p =>
        p.1 == jsString (objField (some tu.input) "agent"))).isSome) = true
    · simp only [hfound, if_true]
      cases hsub : subFn (jsString (objField (some tu.input) "agent"))
          (jsString (objField (some tu.input) "message")) with
      | ok res =>
        simp only [List.filterMap_cons]
        exact congrArg _ ihr
      | error e =>
        simp only [List.filterMap_cons]
        exact congrArg _ ihr
    · rw [Bool.not_eq_true] at hfound
      simp only [hfound, Bool.false_eq_true, if_false]
      simp only [List.filterMap_cons]
      exact congrArg _ ihr

/-- The pairing invariant is preserved by the orchestrator's loop when every
reply uses distinct ids and requests only the delegation tool. -/
theorem orchestrateLoop_paired (oracle : Nat → LLMResponse) (subFn : SubFn)
    (hids : ∀ i, ((extractToolUse (oracle i)).map ToolUseBlock.id).Nodup)
    (hdeleg : ∀ i, ∀ tu ∈ extractToolUse (oracle i), tu.name = "delegate_to_agent") :
    ∀ (fuel : Nat) (st : OrchestratorState), pairedBool st.messages = true →
    pairedBool (orchestrateLoop oracle subFn fuel st).messages = true := by
  intro fuel
  induction fuel with
  | zero =>
    intro st h
    exact h
  | succ fuel ih =>
    intro st h
    by_cases hemp : (extractToolUse (oracle st.llmCalls)).isEmpty = true
    · simp only [orchestrateLoop, hemp, if_true]
      exact pairedBool_append_single st.messages _ h (by
        show (pendingToolUses ⟨.assistant, .blocks (oracle st.llmCalls).content⟩).isEmpty = true
        exact hemp)
    · rw [Bool.not_eq_true] at hemp
      simp only [orchestrateLoop, hemp, Bool.false_eq_true, if_false]
      apply ih
      show pairedBool ((st.messages ++ [⟨.assistant, .blocks (oracle st.llmCalls).content⟩]) ++
        [⟨.user, .blocks (processDelegations subFn (extractToolUse (oracle st.llmCalls))).1⟩]) =
        true
      rw [List.append_assoc]
      apply pairedBool_append_pair st.messages _ _ h rfl (by rfl)
      rw [List.all_eq_true]
      intro tu htu
      have hcount : ((extractToolUse (oracle st.llmCalls)).map ToolUseBlock.id).count tu.id = 1 :=
        List.count_eq_one_of_mem (hids st.llmCalls) (List.mem_map_of_mem ToolUseBlock.id htu)
      have hids' := processDelegations_ids subFn (extractToolUse (oracle st.llmCalls))
        (hdeleg st.llmCalls)
      show (resultCount ⟨.user,
        .blocks (processDelegations subFn (extractToolUse (oracle st.llmCalls))).1⟩ tu.id == 1) =
        true
      simp only [resultCount]
      rw [hids', hcount]
      rfl

/-- C2 (amended): the pairing invariant holds for every conversation the
agent engine produces, provided each oracle reply carries pairwise-distinct
tool-use ids and the prior conversation (plus the new user message) already
satisfies it; for the orchestrator the same holds under the additional
proviso that every requested tool-use block carries the delegation tool's
name — a block with any other name receives no tool-result at all. -/
theorem claim_C2_theorem :
    (∀ (oracle : Oracle) (r : ToolRegistry) (opts : RunAgentOptions),
      (∀ i targ, ((extractToolUse (oracle i targ)).map ToolUseBlock.id).Nodup) →
      pairedBool (opts.priorMessages ++ [⟨.user, .str opts.userMessage⟩]) = true →
      pairedBool (runAgent oracle r opts).messages = true) ∧
    (∀ (oracle : Nat → LLMResponse) (subFn : SubFn) (msg : String) (hist : List Message),
      (∀ i, ((extractToolUse (oracle i)).map ToolUseBlock.id).Nodup) →
      (∀ i, ∀ tu ∈ extractToolUse (oracle i), tu.name = "delegate_to_agent") →
      pairedBool (hist ++ [⟨.user, .str msg⟩]) = true →
      pairedBool (orchestrate oracle subFn msg hist).conversationHistory = true) := by
  constructor
  · intro oracle r opts hids hinit
    show pairedBool (runAgentLoop (fun i => oracle i (runAgentToolsArg r opts.toolNames)) r
      opts.maxIterations.toNat (initialState opts)).messages = true
    exact runAgentLoop_paired (fun i => oracle i (runAgentToolsArg r opts.toolNames)) r
      (fun i => hids i _) opts.maxIterations.toNat (initialState opts) hinit
  · intro oracle subFn msg hist hids hdeleg hinit
    have hconv : (orchestrate oracle subFn msg hist).conversationHistory =
        (orchestrateLoop oracle subFn maxOrchestratorLoops
          ⟨hist ++ [⟨.user, .str msg⟩], [], "", 0⟩).messages := rfl
    rw [hconv]
    have h1 := orchestrateLoop_paired oracle subFn hids hdeleg
    have h2 := h1 maxOrchestratorLoops ⟨hist ++ [⟨.user, .str msg⟩], [], "", 0⟩
    exact h2 hinit

/-- An orchestrator oracle whose first reply requests a tool that is not the
delegation tool. -/
def strayOracle : Nat → LLMResponse := fun i =>
  match i with
  | 0 => ⟨[ContentBlock.toolUse "tu1" "foo" (Value.obj [])]⟩
  | _ => ⟨[ContentBlock.text "done"]⟩

/-- A sub-agent boundary that always succeeds. -/
def okSubFn : SubFn := fun _ m => .ok ("did: " ++ m)

set_option maxHeartbeats 2000000 in
/-- C2 (counterexample): the orchestrator drops tool-use blocks whose name is
not `delegate_to_agent` without pushing any tool-result, so a conversation it
produces can violate the pairing invariant: here the assistant's `tu1`
request is followed by a user message with an empty block list. -/
theorem claim_C2_counterexample :
    pairedBool (orchestrate strayOracle okSubFn "hi" []).conversationHistory = false := by
  decide

/-- An orchestrator oracle that delegates once, then stops. -/
def delegOracle : Nat → LLMResponse := fun i =>
  match i with
  | 0 => ⟨[ContentBlock.toolUse "d1" "delegate_to_agent"
      (Value.obj [("agent", Value.str "jira_management"),
                  ("message", Value.str "create the ticket")])]⟩
  | _ => ⟨[ContentBlock.text "done"]⟩

/-- Witness for C2 on a tool-using engine run and a single-delegation
orchestrator run. -/
theorem claim_C2_witness :
    pairedBool (runAgent alwaysToolOracle c4registry c3opts).messages = true ∧
    pairedBool (orchestrate delegOracle okSubFn "file a ticket" []).conversationHistory =
      true :=
  ⟨claim_C2_theorem.1 alwaysToolOracle c4registry c3opts
    (by intro i targ; simp [alwaysToolOracle, extractToolUse, toolUsesIn]) (by decide),
   claim_C2_theorem.2 delegOracle okSubFn "file a ticket" []
    (by intro i; cases i <;> simp [delegOracle, extractToolUse, toolUsesIn])
    (by intro i tu htu
        cases i with
        | zero =>
          simp only [delegOracle, extractToolUse, toolUsesIn, List.filterMap] at htu
          simp at htu
          rw [htu]
        | succ n =>
          simp [delegOracle, extractToolUse, toolUsesIn] at htu)
    (by decide)⟩

end Nishi
